import Mathlib

/-!
Shallow embedding of the date utilities in src/core-js-dates-tasks.js and
verification of the specification claims about them.

Conventions mirroring the JavaScript runtime:
- a JsDate value is the state of a JS Date object at day precision:
  year, month (0-indexed, as getMonth returns), day of month (1-based,
  as getDate returns), always kept normalized;
- constructing a Date from out-of-range month or day components
  normalizes by rolling over month and year boundaries, exactly as
  new Date(y, m, d) does; day 0 and negative days borrow from the
  previous month;
- getDay returns 0 for Sunday .. 6 for Saturday.
-/

namespace CoreJsDates

/-- Embeds isLeapYear from the source (Gregorian rule on the year). -/
def isLeapYear (y : Nat) : Bool :=
  if y % 4 != 0 then false
  else if y % 100 != 0 then true
  else if y % 400 != 0 then false
  else true

/-- Number of days of the month with 0-indexed number m of year y
(the value new Date(y, m + 1, 0).getDate() produces for m < 12). -/
def daysInMonth (y m : Nat) : Nat :=
  match m with
  | 0 => 31
  | 1 => if isLeapYear y then 29 else 28
  | 2 => 31
  | 3 => 30
  | 4 => 31
  | 5 => 30
  | 6 => 31
  | 7 => 31
  | 8 => 30
  | 9 => 31
  | 10 => 30
  | _ => 31

/-- State of a JS Date object at day precision, normalized. -/
structure JsDate where
  year : Nat
  month : Nat
  day : Nat
  deriving DecidableEq, Repr

/-- Days contributed by the months of year y strictly before 0-indexed month m. -/
def daysBeforeMonth (y : Nat) : Nat → Nat
  | 0 => 0
  | m + 1 => daysBeforeMonth y m + daysInMonth y m

/-- Number of leap years strictly before year y (counting from year 0,
which is leap in the proleptic Gregorian calendar). -/
def leapsBefore (y : Nat) : Nat :=
  (y + 3) / 4 + (y + 399) / 400 - (y + 99) / 100

/-- Rata-die style day index of a date: days elapsed from 0000-01-01. -/
def rd (d : JsDate) : Nat :=
  365 * d.year + leapsBefore d.year + daysBeforeMonth d.year d.month + (d.day - 1)

/-- Embeds Date.prototype.getDay: 0 = Sunday .. 6 = Saturday. -/
def getDay (d : JsDate) : Nat :=
  (rd d + 6) % 7

/-- Successor month of (y, m) with December rolling into the next year. -/
def nextMonth (y m : Nat) : Nat × Nat :=
  if m = 11 then (y + 1, 0) else (y, m + 1)

/-- Predecessor month of (y, m) with January borrowing from the previous year. -/
def prevMonth (y m : Nat) : Nat × Nat :=
  if m = 0 then (y - 1, 11) else (y, m - 1)

/-- Normalizes a day component d (possibly 0, negative, or past the end of
month m) into a valid JsDate, rolling across month and year boundaries the
way the JS Date component normalization does.  Month m must be in 0..11. -/
def normDay (y m : Nat) (d : Int) : JsDate :=
  if h1 : d ≤ 0 then
    normDay (prevMonth y m).1 (prevMonth y m).2
      (d + daysInMonth (prevMonth y m).1 (prevMonth y m).2)
  else if h2 : (daysInMonth y m : Int) < d then
    normDay (nextMonth y m).1 (nextMonth y m).2 (d - daysInMonth y m)
  else
    ⟨y, m, d.toNat⟩
termination_by (if d ≤ 0 then 65 - d else d).toNat
decreasing_by
  · have hdm : ∀ (a b : Nat), 28 ≤ daysInMonth a b ∧ daysInMonth a b ≤ 31 := by
      intro a b
      cases h : isLeapYear a <;>
      rcases b with _ | _ | _ | _ | _ | _ | _ | _ | _ | _ | _ | b <;>
      simp [daysInMonth, h]
    have h1 := hdm (prevMonth y m).1 (prevMonth y m).2
    split <;> omega
  · have hdm : ∀ (a b : Nat), 28 ≤ daysInMonth a b ∧ daysInMonth a b ≤ 31 := by
      intro a b
      cases h : isLeapYear a <;>
      rcases b with _ | _ | _ | _ | _ | _ | _ | _ | _ | _ | _ | b <;>
      simp [daysInMonth, h]
    have h1 := hdm y m
    split <;> omega

/-- Embeds new Date(y, m, d) at day precision: month overflow past 11 rolls
into later years (the sources never pass a negative month), then the day is
normalized. -/
def mkDate (y m : Nat) (d : Int) : JsDate :=
  normDay (y + m / 12) (m % 12) d

/-- Embeds date.setDate(i): keeps year and month, replaces the day component
and normalizes; returns the new state of the mutated object. -/
def setDate (dt : JsDate) (i : Int) : JsDate :=
  normDay dt.year dt.month i

/-- Embeds date.setMonth(m): keeps year and day-of-month, replaces the month
and normalizes; returns the new state of the mutated object. -/
def setMonth (dt : JsDate) (m : Nat) : JsDate :=
  mkDate dt.year m dt.day

/-- A JsDate with its components in the ranges the normalization produces. -/
def JsDate.Valid (d : JsDate) : Prop :=
  d.month ≤ 11 ∧ 1 ≤ d.day ∧ d.day ≤ daysInMonth d.year d.month

instance (d : JsDate) : Decidable d.Valid := by
  unfold JsDate.Valid; infer_instance

/-- Calendar successor of a date: the following calendar day
(this is the day-walk step the specification describes). -/
def nextDay (d : JsDate) : JsDate :=
  normDay d.year d.month ((d.day : Int) + 1)

/-- The date n calendar days after d. -/
def addDays (d : JsDate) : Nat → JsDate
  | 0 => d
  | n + 1 => nextDay (addDays d n)

/-- Decimal digit character, for d in 0..9. -/
def digitChar (d : Nat) : Char :=
  Char.ofNat (48 + d)

/-- Decimal digit characters of n, most significant first: the character
list of the JS conversion String(n) for a nonnegative integer n. -/
def natDigits (n : Nat) : List Char :=
  if n < 10 then [digitChar n]
  else natDigits (n / 10) ++ [digitChar (n % 10)]
termination_by n
decreasing_by
  exact Nat.div_lt_self (by omega) (by omega)

/-- Embeds String(n).padStart(2, "0"): one leading zero when the decimal
form has a single digit, otherwise the decimal form unchanged. -/
def padStart2 (n : Nat) : List Char :=
  if n < 10 then '0' :: natDigits n else natDigits n

/-- Embeds Number(s) on the all-digit strings the schedule parser feeds it:
the decimal value of the digit characters. -/
def jsNumber (s : List Char) : Nat :=
  s.foldl (fun acc c => acc * 10 + (c.toNat - 48)) 0

/-- Embeds String.prototype.split("-") on the character list of a string. -/
def splitDash : List Char → List (List Char)
  | [] => [[]]
  | c :: rest =>
    if c = '-' then [] :: splitDash rest
    else
      match splitDash rest with
      | [] => [[c]]
      | p :: ps => (c :: p) :: ps

/-- Builds the date string the schedule code pushes:
String(d).padStart(2, "0") + "-" + String(m).padStart(2, "0") + "-" + year. -/
def fmtDMY (d m y : Nat) : String :=
  String.mk (padStart2 d ++ '-' :: (padStart2 m ++ '-' :: natDigits y))

/-- An input period of the schedule generator; the source field named end is
called stop here because end is reserved in Lean. -/
structure Period where
  start : String
  stop : String

/-- Embeds the inner day loop of getWorkSchedule over a full month i:
for (let j = start; j <= days; j++) with the work/off skip, the push of
the formatted day, and the adjustment of start when the skip overruns the
month.  Returns the grown schedule, the running count and the adjusted
start. -/
def workInner (year i days w o : Nat) (j count startv : Nat) (acc : List String) :
    List String × Nat × Nat :=
  if j ≤ days then
    let acc2 := acc ++ [fmtDMY j (if 10 ≤ i then i else i + 1) year]
    let count2 := count + 1
    if w ≤ count2 then
      let j2 := j + o
      let startv2 := if days < j2 then startv + (j2 - days) else startv
      workInner year i days w o (j2 + 1) 0 startv2 acc2
    else
      workInner year i days w o (j + 1) count2 startv acc2
  else
    (acc, count, startv)
termination_by days + 1 - j
decreasing_by
  · omega
  · omega

/-- Embeds the outer month loop of getWorkSchedule:
for (let i = monthStart; i < month; i++), recomputing the day count of
month i as new Date(year, i + 1, 0).getDate() and running the inner day
loop from the current start. -/
def workMonths (year month w o : Nat) (i startv count : Nat) (acc : List String) :
    List String × Nat × Nat :=
  if i < month then
    let days := (mkDate year (i + 1) 0).day
    let r := workInner year i days w o startv count startv acc
    workMonths year month w o (i + 1) r.2.2 r.2.1 r.1
  else
    (acc, count, startv)
termination_by month - i

/-- Embeds the final day loop of getWorkSchedule over the end month:
for (let i = start; i <= end; i++) with the same push and skip logic but
no start adjustment. -/
def workFinal (year month w o eend : Nat) (i count : Nat) (acc : List String) :
    List String :=
  if i ≤ eend then
    let acc2 := acc ++ [fmtDMY i (if 10 ≤ month then month else month + 1) year]
    let count2 := count + 1
    if w ≤ count2 then
      workFinal year month w o eend (i + o + 1) 0 acc2
    else
      workFinal year month w o eend (i + 1) count2 acc2
  else
    acc
termination_by eend + 1 - i
decreasing_by
  · omega
  · omega

/-- Embeds getWorkSchedule from the source: parses day, month and year
from the two DD-MM-YYYY strings exactly as the code does (Number of the
dash-separated parts, month decremented only when its first character is
the digit zero), runs the month loop and then the final loop, and returns
the concatenation of the two collected arrays.  The dead stores of the
source (the unused initial days and the never-read Date d) are omitted. -/
def getWorkSchedule (p : Period) (countWorkDays countOffDays : Nat) : List String :=
  let ps := splitDash p.start.data
  let pe := splitDash p.stop.data
  let startv := jsNumber (ps.getD 0 [])
  let eend := jsNumber (pe.getD 0 [])
  let year := jsNumber (pe.getD 2 [])
  let monthS := pe.getD 1 []
  let monthStartS := ps.getD 1 []
  let monthStart :=
    if monthStartS.headD ' ' = '0' then jsNumber monthStartS - 1 else jsNumber monthStartS
  let month :=
    if monthS.headD ' ' = '0' then jsNumber monthS - 1 else jsNumber monthS
  let r := workMonths year month countWorkDays countOffDays monthStart startv 0 []
  workFinal year month countWorkDays countOffDays eend r.2.2 r.2.1 r.1

/-- Work-phase predicate of the claim: the day at offset k from the period
start is worked when k modulo the cycle length falls inside the first
workDays positions. -/
def isWorkOffset (w o k : Nat) : Bool :=
  decide (k % (w + o) < w)

/-- Formats a calendar day as the zero-padded DD-MM-YYYY string carrying
that day's own month and year (month rendered 1-indexed). -/
def fmtDate (d : JsDate) : String :=
  fmtDMY d.day (d.month + 1) d.year

/-- The schedule the claim describes: the days of the inclusive range
from s to e whose day-offset k from s satisfies k mod (w + o) < w, in
chronological order, each formatted from its own calendar day. -/
def workScheduleSpec (s e : JsDate) (w o : Nat) : List String :=
  ((List.range (rd e + 1 - rd s)).filter (fun k => isWorkOffset w o k)).map
    (fun k => fmtDate (addDays s k))

/-- Splits a character list on a separator character, like
String.prototype.split with a one-character separator. -/
def splitCh (sep : Char) : List Char → List (List Char)
  | [] => [[]]
  | c :: rest =>
    if c = sep then [] :: splitCh sep rest
    else
      match splitCh sep rest with
      | [] => [[c]]
      | p :: ps => (c :: p) :: ps

/-- Parses a nonempty all-digit character list as a decimal number. -/
def parseDigits (s : List Char) : Option Nat :=
  if s ≠ [] ∧ s.all (fun c => decide (48 ≤ c.toNat ∧ c.toNat ≤ 57)) then
    some (jsNumber s)
  else
    none

/-- English month abbreviations in calendar order. -/
def monthNames : List String :=
  ["Jan", "Feb", "Mar", "Apr", "May", "Jun",
   "Jul", "Aug", "Sep", "Oct", "Nov", "Dec"]

/-- Modelled from the spec: the runtime's date-string parser is not part of
the repository source; section 6 of the spec names the accepted
DD MMM YYYY HH:mm:ss zzz form, which this definition parses into epoch
milliseconds, and every other string is an unparseable date (the NaN time
value, modelled as none). -/
def parseDateString (s : String) : Option Int :=
  match splitCh ' ' s.data with
  | [dS, monS, yS, tS, zS] =>
    match parseDigits dS, parseDigits yS,
        monthNames.findIdx? (fun n => n.data = monS) with
    | some day, some year, some mon =>
      match splitCh ':' tS with
      | [hS, miS, sS] =>
        match parseDigits hS, parseDigits miS, parseDigits sS with
        | some h, some mi, some sec =>
          if (zS = "UTC".data ∨ zS = "GMT".data) ∧ 1 ≤ day ∧
              day ≤ daysInMonth year mon ∧ h < 24 ∧ mi < 60 ∧ sec < 60 then
            some (((rd ⟨year, mon, day⟩ : Int) - 719528) * 86400000 +
              (h * 3600 + mi * 60 + sec) * 1000)
          else
            none
        | _, _, _ => none
      | _ => none
    | _, _, _ => none
  | _ => none

/-- Embeds dateToTimestamp: new Date(date).valueOf(), the epoch-millisecond
time value of the parsed string, with the NaN of an invalid date modelled
as none. -/
def dateToTimestamp (date : String) : Option Int :=
  parseDateString date

/-- Full English weekday names indexed by getDay order. -/
def weekdayNames : List String :=
  ["Sunday", "Monday", "Tuesday", "Wednesday", "Thursday", "Friday", "Saturday"]

/-- Modelled from the spec: toLocaleDateString("en-US", with weekday long)
renders the full weekday name of the instant in the zone the runtime
formats with; the options of the source pin no timeZone, so the ambient
zone of the process (an offset in minutes from UTC) applies. -/
def toLocaleWeekdayLong (tzOffsetMin : Int) (ms : Int) : String :=
  let localDay : Int := (ms + tzOffsetMin * 60000).fdiv 86400000
  weekdayNames.getD ((localDay + 4).emod 7).toNat ""

/-- Embeds getDayName: parses the string with the runtime parser and
renders the weekday name in the ambient time zone. -/
def getDayName (tzOffsetMin : Int) (date : String) : String :=
  match parseDateString date with
  | none => "Invalid Date"
  | some ms => toLocaleWeekdayLong tzOffsetMin ms

/-- Ambient locale state of the process, reduced to the one attribute the
default time format depends on: whether the locale formats with a 12-hour
clock (as en-US does) or a 24-hour clock. -/
structure JsLocale where
  hour12 : Bool

/-- Local wall-clock time components of a date. -/
structure TimeOfDay where
  hour : Nat
  minute : Nat
  second : Nat

/-- Renders h:mm:ss AM or PM from 24-hour components, as the en-US default
time format does (hour unpadded, 12-hour cycle). -/
def render12h (h mi s : Nat) : String :=
  String.mk (natDigits ((h + 11) % 12 + 1)) ++ ":" ++ String.mk (padStart2 mi) ++ ":" ++
    String.mk (padStart2 s) ++ (if h < 12 then " AM" else " PM")

/-- Modelled from the spec: Date.prototype.toLocaleTimeString with no
arguments (as the source calls it) formats with the default time format of
the ambient locale: h:mm:ss AM/PM for 12-hour locales, zero-padded
HH:MM:SS for 24-hour locales. -/
def toLocaleTimeString (loc : JsLocale) (t : TimeOfDay) : String :=
  if loc.hour12 then
    render12h t.hour t.minute t.second
  else
    String.mk (padStart2 t.hour) ++ ":" ++ String.mk (padStart2 t.minute) ++ ":" ++
      String.mk (padStart2 t.second)

/-- Embeds getTime: date.toLocaleTimeString() on the local wall-clock time
of the date, under the ambient locale. -/
def getTime (loc : JsLocale) (t : TimeOfDay) : String :=
  toLocaleTimeString loc t

/-- The 24-hour zero-padded HH:MM:SS rendering the claim describes. -/
def hhmmss (t : TimeOfDay) : String :=
  String.mk (padStart2 t.hour) ++ ":" ++ String.mk (padStart2 t.minute) ++ ":" ++
    String.mk (padStart2 t.second)

/-- Modelled from the spec: toLocaleDateString("en-US", options) with
numeric hour, minute and second and an optional fixed timeZone renders
M/D/YYYY, h:mm:ss AM/PM; with no timeZone option the ambient zone applies,
with one the ambient zone is ignored.  Instants before the epoch are out
of scope of the claims that use this. -/
def toLocaleDateTimeEnUS (ambientTz : Int) (optTz : Option Int) (ms : Int) : String :=
  let off := optTz.getD ambientTz
  let lms := ms + off * 60000
  let days := lms.fdiv 86400000
  let rem := (lms.emod 86400000).toNat
  let dt := addDays ⟨1970, 0, 1⟩ days.toNat
  String.mk (natDigits (dt.month + 1)) ++ "/" ++ String.mk (natDigits dt.day) ++ "/" ++
    String.mk (natDigits dt.year) ++ ", " ++
    render12h (rem / 3600000) (rem / 60000 % 60) (rem / 1000 % 60)

/-- Embeds formatDate: parses the string and renders it with the en-US
date-time format and the fixed timeZone "Africa/Dakar", which is UTC+0
year round, so the option passes offset 0 regardless of the ambient
zone. -/
def formatDate (ambientTz : Int) (date : String) : String :=
  match parseDateString date with
  | none => "Invalid Date"
  | some ms => toLocaleDateTimeEnUS ambientTz (some 0) ms

/-- Embeds the while loop of getNextFriday with a fuel bound: while the
current weekday is not Friday, the source runs date.setDate(day++), so each
step sets the day-of-month of the current state to day and increments day.
The result pairs the final state of the mutated date object with the value
of the returned expression; the source returns the date reference itself,
so the two components are built from the same state.  none means the loop
has not exited within fuel iterations (the source gives no bound). -/
def nextFridayLoop : Nat → JsDate → Nat → Option (JsDate × JsDate)
  | 0, _, _ => none
  | fuel + 1, date, day =>
    if getDay date = 5 then some (date, date)
    else nextFridayLoop fuel (setDate date (day : Int)) (day + 1)

/-- Embeds getNextFriday: reads day = date.getDate(), runs
date.setDate(++day) so the state advances one calendar day, then enters
the while loop with the incremented day. -/
def getNextFriday (fuel : Nat) (date : JsDate) : Option (JsDate × JsDate) :=
  let day := date.day + 1
  nextFridayLoop fuel (setDate date (day : Int)) day

/-- Embeds the first loop of getNextFridayThe13th: for i over the remaining
days of the starting month, date.setDate(i) then return date when the state
is a Friday and i is 13. -/
def scanRestOfMonth (date : JsDate) : List Nat → Option JsDate
  | [] => none
  | i :: rest =>
    let d2 := setDate date (i : Int)
    if getDay d2 = 5 ∧ i = 13 then some d2 else scanRestOfMonth d2 rest

/-- Embeds the inner day loop of the second phase of getNextFridayThe13th:
copy.setDate(j) for j from 1 to days, returning copy on a Friday the 13th;
also yields the final state of copy for the next outer iteration. -/
def scanCopyDays : List Nat → JsDate → Option JsDate × JsDate
  | [], copy => (none, copy)
  | j :: rest, copy =>
    let c2 := setDate copy (j : Int)
    if getDay c2 = 5 ∧ j = 13 then (some c2, c2) else scanCopyDays rest c2

/-- Embeds the outer month loop of the second phase of getNextFridayThe13th:
for i from month + 1 while i < 11, the day bound is read from
new Date(copy.getFullYear(), copy.getMonth(), 0) with the current state of
copy, then copy.setMonth(i) and the inner day scan run. -/
def scanLaterMonths : List Nat → JsDate → Option JsDate
  | [], _ => none
  | i :: rest, copy =>
    let days := (mkDate copy.year copy.month 0).day
    let c2 := setMonth copy i
    match scanCopyDays (List.range' 1 days) c2 with
    | (some r, _) => some r
    | (none, c3) => scanLaterMonths rest c3

/-- Embeds getNextFridayThe13th: snapshots copy, scans the rest of the
starting month on date, then scans months month + 1 .. 10 on copy; when
both phases find nothing the source falls off the end and returns
undefined, modelled as none. -/
def getNextFridayThe13th (date : JsDate) : Option JsDate :=
  let copy := date
  let day := date.day
  let days := (mkDate date.year (date.month + 1) 0).day
  match scanRestOfMonth date (List.range' (day + 1) (days - day)) with
  | some r => some r
  | none =>
    let month := copy.month
    scanLaterMonths (List.range' (month + 1) (11 - (month + 1))) copy

/-- Embeds getQuarter: the source compares date.valueOf() against the time
values of new Date(year, 2, 31), new Date(year, 5, 31) and
new Date(year, 8, 31); at the day precision of this embedding valueOf is
strictly monotone in the calendar day, so the comparisons are the
corresponding comparisons of day indexes. -/
def getQuarter (date : JsDate) : Nat :=
  let year := date.year
  let quarter := rd (mkDate year 2 31)
  if rd date ≤ quarter then 1
  else if quarter < rd date ∧ rd date ≤ rd (mkDate year 5 31) then 2
  else if rd (mkDate year 5 31) < rd date ∧ rd date ≤ rd (mkDate year 8 31) then 3
  else 4

/-- Embeds the day loop shared by both blocks of getWeekNumberByDate:
for (let j = 2; j <= days; j++) checks the current state for Monday before
d.setDate(j); returns the final state and count. -/
def weekScanDays : List Nat → JsDate → Nat → JsDate × Nat
  | [], d, count => (d, count)
  | j :: rest, d, count =>
    let c2 := if getDay d = 1 then count + 1 else count
    weekScanDays rest (setDate d (j : Int)) c2

/-- Embeds one month block of getWeekNumberByDate: d starts at day 1 of
month i, the day loop runs j = 2 .. days, and the day left current after
the loop gets the trailing Monday check. -/
def weekMonthBlock (year i days count : Nat) : Nat :=
  let d0 := mkDate year i 1
  let r := weekScanDays (List.range' 2 (days - 1)) d0 count
  if getDay r.1 = 1 then r.2 + 1 else r.2

/-- Embeds the month loop of getWeekNumberByDate: every month i before the
target month is scanned in full, with days = new Date(year, i + 1, 0). -/
def weekMonths (year : Nat) : List Nat → Nat → Nat
  | [], count => count
  | i :: rest, count =>
    weekMonths year rest (weekMonthBlock year i (mkDate year (i + 1) 0).day count)

/-- Embeds getWeekNumberByDate: count starts at 1 unless January 1 is a
Monday, every month before the target month is scanned in full, and the
target month is scanned up to date.getDate(). -/
def getWeekNumberByDate (date : JsDate) : Nat :=
  let year := date.year
  let month := date.month
  let d := mkDate year 0 1
  let dayName := getDay d
  let count := if dayName ≠ 1 then 1 else 0
  let count2 := weekMonths year (List.range' 0 month) count
  weekMonthBlock year month date.day count2

/-- The scan the claim describes: a counter starting at 1 unless January 1
of the year of the date is a Monday, plus one for every Monday among the
calendar days from January 1 up to and including the date. -/
def weekNumberSpec (date : JsDate) : Nat :=
  let jan1 : JsDate := ⟨date.year, 0, 1⟩
  let n := rd date + 1 - rd jan1
  (if getDay jan1 = 1 then 0 else 1) +
    ((List.range n).map (fun k => addDays jan1 k)).countP (fun d => decide (getDay d = 1))

theorem daysInMonth_bounds (y m : Nat) :
    28 ≤ daysInMonth y m ∧ daysInMonth y m ≤ 31 := by
  cases h : isLeapYear y <;>
  rcases m with _ | _ | _ | _ | _ | _ | _ | _ | _ | _ | _ | m <;>
  simp [daysInMonth, h]

theorem isLeapYear_iff (y : Nat) :
    isLeapYear y = true ↔ (y % 4 = 0 ∧ (y % 100 ≠ 0 ∨ y % 400 = 0)) := by
  unfold isLeapYear
  by_cases h1 : y % 4 = 0 <;> by_cases h2 : y % 100 = 0 <;> by_cases h3 : y % 400 = 0 <;>
    simp [h1, h2, h3]

theorem leapsBefore_succ (y : Nat) :
    leapsBefore (y + 1) = leapsBefore y + (if isLeapYear y then 1 else 0) := by
  have h := isLeapYear_iff y
  unfold leapsBefore
  cases hb : isLeapYear y <;> simp [hb] at h ⊢ <;> omega

theorem daysBeforeMonth_twelve (y : Nat) :
    daysBeforeMonth y 12 = if isLeapYear y then 366 else 365 := by
  cases hb : isLeapYear y <;>
    simp [daysBeforeMonth, daysInMonth, hb]

theorem rd_nextMonth_first (y m : Nat) :
    rd ⟨(nextMonth y m).1, (nextMonth y m).2, 1⟩ = rd ⟨y, m, 1⟩ + daysInMonth y m := by
  unfold nextMonth
  by_cases h : m = 11
  · subst h
    simp only [if_pos rfl]
    have h1 := leapsBefore_succ y
    have h3 := daysBeforeMonth_twelve y
    have h2 : daysBeforeMonth y 12 = daysBeforeMonth y 11 + daysInMonth y 11 := rfl
    have h4 : daysBeforeMonth (y + 1) 0 = 0 := rfl
    unfold rd
    cases hb : isLeapYear y <;> simp [hb] at h1 h3 <;> simp <;> omega
  · simp only [if_neg h]
    have h2 : daysBeforeMonth y (m + 1) = daysBeforeMonth y m + daysInMonth y m := rfl
    unfold rd
    simp
    omega

theorem normDay_valid (y m : Nat) (d : Int) (hm : m ≤ 11) :
    (normDay y m d).Valid := by
  induction y, m, d using normDay.induct with
  | case1 y m d h1 ih =>
    rw [normDay, dif_pos h1]
    apply ih
    unfold prevMonth
    split <;> omega
  | case2 y m d h1 h2 ih =>
    rw [normDay, dif_neg h1, dif_pos h2]
    apply ih
    unfold nextMonth
    split <;> omega
  | case3 y m d h1 h2 =>
    rw [normDay, dif_neg h1, dif_neg h2]
    refine ⟨hm, ?_, ?_⟩ <;> simp <;> omega

theorem rd_normDay (y m : Nat) (d : Int) (hd : 1 ≤ d) :
    rd (normDay y m d) + 1 = rd ⟨y, m, 1⟩ + d.toNat := by
  induction y, m, d using normDay.induct with
  | case1 y m d h1 ih => omega
  | case2 y m d h1 h2 ih =>
    rw [normDay, dif_neg h1, dif_pos h2]
    have hdm := daysInMonth_bounds y m
    have hrec := ih (by omega)
    have hnext := rd_nextMonth_first y m
    omega
  | case3 y m d h1 h2 =>
    rw [normDay, dif_neg h1, dif_neg h2]
    unfold rd
    simp
    omega

theorem normDay_day_le (y m : Nat) (d : Int) (hd : 1 ≤ d) :
    ((normDay y m d).day : Int) ≤ d := by
  induction y, m, d using normDay.induct with
  | case1 y m d h1 ih => omega
  | case2 y m d h1 h2 ih =>
    rw [normDay, dif_neg h1, dif_pos h2]
    have hdm := daysInMonth_bounds y m
    have hrec := ih (by omega)
    omega
  | case3 y m d h1 h2 =>
    rw [normDay, dif_neg h1, dif_neg h2]
    simp
    omega

theorem normDay_id (y m : Nat) (d : Nat) (h1 : 1 ≤ d) (h2 : d ≤ daysInMonth y m) :
    normDay y m (d : Int) = ⟨y, m, d⟩ := by
  rw [normDay, dif_neg (by omega), dif_neg (by omega)]
  simp

theorem nextDay_valid (d : JsDate) (h : d.month ≤ 11) : (nextDay d).Valid :=
  normDay_valid _ _ _ h

theorem rd_nextDay (d : JsDate) (h : 1 ≤ d.day) : rd (nextDay d) = rd d + 1 := by
  have h1 := rd_normDay d.year d.month ((d.day : Int) + 1) (by omega)
  have h2 : rd d = rd ⟨d.year, d.month, 1⟩ + (d.day - 1) := by
    unfold rd
    simp
  unfold nextDay
  omega

theorem addDays_valid (d : JsDate) (h : d.Valid) (n : Nat) : (addDays d n).Valid := by
  induction n with
  | zero => exact h
  | succ n ih => exact nextDay_valid _ ih.1

theorem rd_addDays (d : JsDate) (h : d.Valid) (n : Nat) : rd (addDays d n) = rd d + n := by
  induction n with
  | zero => rfl
  | succ n ih =>
    have hv := addDays_valid d h n
    have := rd_nextDay (addDays d n) hv.2.1
    unfold addDays
    omega

theorem digitChar_lt_ten (d : Nat) (h : d < 10) :
    digitChar d ≠ '-' ∧ (digitChar d).toNat = 48 + d ∧ (digitChar d = '0' ↔ d = 0) := by
  interval_cases d <;> refine ⟨by decide, by decide, by decide⟩

theorem natDigits_ne_nil (n : Nat) : natDigits n ≠ [] := by
  rw [natDigits]
  split
  · simp
  · simp

theorem dash_not_mem_natDigits (n : Nat) : '-' ∉ natDigits n := by
  induction n using natDigits.induct with
  | case1 n h =>
    rw [natDigits, if_pos h]
    have := digitChar_lt_ten n h
    intro hmem
    simp at hmem
    exact this.1 hmem.symm
  | case2 n h ih =>
    rw [natDigits, if_neg h]
    have h2 := digitChar_lt_ten (n % 10) (Nat.mod_lt _ (by omega))
    intro hmem
    simp at hmem
    rcases hmem with hmem | hmem
    · exact ih hmem
    · exact h2.1 hmem.symm

theorem jsNumber_go (acc : Nat) (n : Nat) :
    (natDigits n).foldl (fun acc c => acc * 10 + (c.toNat - 48)) acc =
      acc * 10 ^ (natDigits n).length + n := by
  induction n using natDigits.induct generalizing acc with
  | case1 n h =>
    rw [natDigits, if_pos h]
    have := digitChar_lt_ten n h
    simp [this.2.1]
  | case2 n h ih =>
    rw [natDigits, if_neg h]
    have h2 := digitChar_lt_ten (n % 10) (Nat.mod_lt _ (by omega))
    rw [List.foldl_append, ih acc]
    simp [h2.2.1, List.length_append, pow_succ]
    rw [← mul_assoc]
    omega

theorem jsNumber_natDigits (n : Nat) : jsNumber (natDigits n) = n := by
  unfold jsNumber
  rw [jsNumber_go]
  simp

theorem jsNumber_padStart2 (n : Nat) : jsNumber (padStart2 n) = n := by
  unfold padStart2
  split
  · show jsNumber ('0' :: natDigits n) = n
    unfold jsNumber
    simp only [List.foldl_cons]
    have : (0 : Nat) * 10 + ('0'.toNat - 48) = 0 := by decide
    rw [this, ← jsNumber, jsNumber_natDigits]
  · exact jsNumber_natDigits n

theorem dash_not_mem_padStart2 (n : Nat) : '-' ∉ padStart2 n := by
  unfold padStart2
  split
  · simp [dash_not_mem_natDigits n]
  · exact dash_not_mem_natDigits n

theorem natDigits_head_ne_zero (n : Nat) (h : 1 ≤ n) :
    (natDigits n).headD ' ' ≠ '0' := by
  induction n using natDigits.induct with
  | case1 n h10 =>
    rw [natDigits, if_pos h10]
    have := digitChar_lt_ten n h10
    simp [this.2.2]
    omega
  | case2 n h10 ih =>
    rw [natDigits, if_neg h10]
    have hne := natDigits_ne_nil (n / 10)
    have := ih (by omega)
    rcases hd : natDigits (n / 10) with _ | ⟨c, cs⟩
    · exact absurd hd hne
    · rw [hd] at this
      simpa using this

theorem padStart2_head_zero (n : Nat) :
    (padStart2 n).headD ' ' = '0' ↔ n < 10 := by
  unfold padStart2
  split
  · simpa
  · have h1 : 1 ≤ n := by omega
    have := natDigits_head_ne_zero n h1
    exact iff_of_false this (by omega)

theorem splitDash_ne_nil (l : List Char) : splitDash l ≠ [] := by
  match l with
  | [] => simp [splitDash]
  | c :: rest =>
    rw [splitDash]
    split
    · simp
    · match h : splitDash rest with
      | [] => simp
      | p :: ps => simp

theorem splitDash_no_dash (xs : List Char) (h : '-' ∉ xs) : splitDash xs = [xs] := by
  induction xs with
  | nil => rfl
  | cons c rest ih =>
    have hc : ¬ c = '-' := by
      intro hc
      exact h (by simp [hc])
    have hr : '-' ∉ rest := fun hm => h (by simp [hm])
    rw [splitDash, if_neg hc, ih hr]

theorem splitDash_append (xs ys : List Char) (h : '-' ∉ xs) :
    splitDash (xs ++ '-' :: ys) = xs :: splitDash ys := by
  induction xs with
  | nil => simp [splitDash]
  | cons c rest ih =>
    have hc : ¬ c = '-' := by
      intro hc
      exact h (by simp [hc])
    have hr : '-' ∉ rest := fun hm => h (by simp [hm])
    rw [List.cons_append, splitDash, if_neg hc, ih hr]

theorem rd_day_decomp (d : JsDate) :
    rd d + 1 = rd ⟨d.year, d.month, 1⟩ + d.day ∨ d.day = 0 := by
  unfold rd
  simp
  omega

theorem nextFridayLoop_spec :
    ∀ (fuel : Nat) (date : JsDate) (day : Nat) (p : JsDate × JsDate) (r0 : Nat),
      date.Valid → date.day ≤ day → r0 < rd date →
      nextFridayLoop fuel date day = some p →
      p.2 = p.1 ∧ getDay p.1 = 5 ∧ r0 < rd p.1 := by
  intro fuel
  induction fuel with
  | zero =>
    intro date day p r0 _ _ _ h
    exact absurd h (by simp [nextFridayLoop])
  | succ fuel ih =>
    intro date day p r0 hv hday hr h
    rw [nextFridayLoop] at h
    by_cases h5 : getDay date = 5
    · rw [if_pos h5] at h
      cases h
      exact ⟨rfl, h5, hr⟩
    · rw [if_neg h5] at h
      have hv2 : (setDate date (day : Int)).Valid := normDay_valid _ _ _ hv.1
      have hday1 : (1 : Int) ≤ (day : Int) := by
        have := hv.2.1
        omega
      have hd2 : (setDate date (day : Int)).day ≤ day := by
        have := normDay_day_le date.year date.month (day : Int) hday1
        unfold setDate at this ⊢
        omega
      have hrd : rd (setDate date (day : Int)) + 1 = rd ⟨date.year, date.month, 1⟩ + day := by
        have h1 := rd_normDay date.year date.month (day : Int) hday1
        unfold setDate
        simpa using h1
      have hself := rd_day_decomp date
      have hr2 : r0 < rd (setDate date (day : Int)) := by
        have := hv.2.1
        omega
      exact ih _ (day + 1) p r0 hv2 (by omega) hr2 h

theorem dash_list_getD :
    ∀ (a b c : List Char), ([a, b, c] : List (List Char)).getD 0 [] = a ∧
      ([a, b, c] : List (List Char)).getD 1 [] = b ∧
      ([a, b, c] : List (List Char)).getD 2 [] = c := by
  intro a b c
  exact ⟨rfl, rfl, rfl⟩

/-- C2: refuted as stated by the code: getNextFridayThe13th does not always
return a value.  Starting from December 14 2023 the first loop finds no
13th in the rest of December and the second loop, which only runs month
indexes up to 10 of the same year, runs zero times, so the function falls
off the end and returns undefined (none), although a later Friday the 13th
exists (September 13 2024 is a Friday). -/
theorem getNextFridayThe13th_december_none :
    getNextFridayThe13th ⟨2023, 11, 14⟩ = none ∧ getDay ⟨2024, 8, 13⟩ = 5 := by
  constructor
  · simp [getNextFridayThe13th, scanRestOfMonth, scanCopyDays, scanLaterMonths, setDate,
      setMonth, mkDate, normDay, getDay, rd, leapsBefore, daysBeforeMonth, daysInMonth,
      isLeapYear, prevMonth, nextMonth, List.range']
  · decide

/-- C3: refuted as stated by the code: for the end-of-month input
January 31 2024 the scan sets ever larger day-of-month values, jumping
whole months at a time, and returns May 16 2025, although February 2 2024
is a Friday strictly between the input and that result, so the returned
date is not the earliest Friday after the input. -/
theorem getNextFriday_endOfMonth_bug :
    getNextFriday 40 ⟨2024, 0, 31⟩ = some (⟨2025, 4, 16⟩, ⟨2025, 4, 16⟩) ∧
      getDay ⟨2024, 1, 2⟩ = 5 ∧ rd ⟨2024, 0, 31⟩ < rd ⟨2024, 1, 2⟩ ∧
      rd ⟨2024, 1, 2⟩ < rd ⟨2025, 4, 16⟩ := by
  refine ⟨?_, by decide, by decide, by decide⟩
  simp [getNextFriday, nextFridayLoop, setDate, mkDate, normDay, getDay, rd, leapsBefore,
    daysBeforeMonth, daysInMonth, isLeapYear, prevMonth, nextMonth]

/-- C5: refuted as stated by the code: the quarter boundaries are built as
new Date(year, 5, 31) and new Date(year, 8, 31), which normalize to
July 1 and October 1 because June and September have 30 days, and the
comparisons are inclusive; so the July 1 instant gets quarter 2 and the
October 1 instant gets quarter 3, not the 3 and 4 the month rule gives. -/
theorem getQuarter_boundary_bug :
    getQuarter ⟨2024, 6, 1⟩ = 2 ∧ getQuarter ⟨2024, 9, 1⟩ = 3 := by
  constructor <;>
    simp [getQuarter, mkDate, normDay, getDay, rd, leapsBefore, daysBeforeMonth, daysInMonth,
      isLeapYear, prevMonth, nextMonth]

/-- C6 counterexample: refuted as stated by the code: getDayName renders in
the ambient time zone, not UTC; in a zone one hour west of UTC the epoch
instant falls on Wednesday December 31 1969 locally, so the same string
yields Wednesday there and Thursday at offset zero. -/
theorem getDayName_tz_counterexample :
    getDayName (-60) "01 Jan 1970 00:00:00 UTC" = "Wednesday" ∧
      getDayName 0 "01 Jan 1970 00:00:00 UTC" = "Thursday" := by decide

/-- C6 amended: for every parseable date string, getDayName returns the
full English weekday name of the date in the process's local time zone;
when the local offset is zero this is the UTC weekday of the instant (here
for instants at or after the epoch, expressed through the calendar day
reached by walking the epoch date forward). -/
theorem getDayName_utc_offset_zero (s : String) (ms : Int)
    (hp : parseDateString s = some ms) (hms : 0 ≤ ms) :
    getDayName 0 s =
      weekdayNames.getD (getDay (addDays ⟨1970, 0, 1⟩ (ms.toNat / 86400000))) "" := by
  have hname : getDayName 0 s = toLocaleWeekdayLong 0 ms := by
    unfold getDayName
    rw [hp]
  rw [hname]
  rw [show toLocaleWeekdayLong 0 ms =
      weekdayNames.getD (((ms + 0 * 60000).fdiv 86400000 + 4).emod 7).toNat "" from rfl]
  have hepochv : (⟨1970, 0, 1⟩ : JsDate).Valid := by decide
  have hepochrd : rd ⟨1970, 0, 1⟩ = 719528 := by decide
  have hrd : rd (addDays ⟨1970, 0, 1⟩ (ms.toNat / 86400000)) =
      719528 + ms.toNat / 86400000 := by
    rw [rd_addDays _ hepochv, hepochrd]
  unfold getDay
  rw [hrd]
  congr 1
  have h1 : ms + 0 * 60000 = ((ms.toNat : Nat) : Int) := by omega
  rw [h1, Int.fdiv_eq_ediv _ (by norm_num)]
  have h2 : ((ms.toNat : Nat) : Int) / 86400000 = ((ms.toNat / 86400000 : Nat) : Int) := by
    omega
  rw [h2]
  have h3 : (((ms.toNat / 86400000 : Nat) : Int) + 4).emod 7 =
      (((ms.toNat / 86400000 + 4) % 7 : Nat) : Int) := by
    show (((ms.toNat / 86400000 : Nat) : Int) + 4) % 7 = _
    push_cast
    ring
  rw [h3, Int.toNat_natCast]
  omega

/-- C6 witness: the amended theorem applied at the epoch string with
offset zero, where it renders Thursday. -/
theorem getDayName_utc_witness :
    getDayName 0 "01 Jan 1970 00:00:00 UTC" =
      weekdayNames.getD (getDay (addDays ⟨1970, 0, 1⟩ ((0 : Int).toNat / 86400000))) "" :=
  getDayName_utc_offset_zero "01 Jan 1970 00:00:00 UTC" 0 (by decide) (by decide)

/-- C7 counterexample: refuted as stated by the code: getTime delegates to
toLocaleTimeString with no arguments, so the ambient locale's default
format applies; under the 12-hour en-US default a local time of 8:20:55
renders as 8:20:55 AM, not as the zero-padded 24-hour 08:20:55. -/
theorem getTime_en_us_counterexample :
    getTime ⟨true⟩ ⟨8, 20, 55⟩ = "8:20:55 AM" ∧
      getTime ⟨true⟩ ⟨8, 20, 55⟩ ≠ hhmmss ⟨8, 20, 55⟩ := by
  constructor <;>
    simp [getTime, toLocaleTimeString, render12h, hhmmss, padStart2, natDigits, digitChar]

/-- C7 amended: getTime returns the ambient locale's default rendering of
the local wall-clock time; in every locale whose default time format is
the 24-hour clock it is the zero-padded HH:MM:SS string of the claim. -/
theorem getTime_24h_locale (loc : JsLocale) (t : TimeOfDay) (h : loc.hour12 = false) :
    getTime loc t = hhmmss t := by
  unfold getTime toLocaleTimeString hhmmss
  rw [h]
  simp

/-- C7 witness: the amended theorem applied at a 24-hour locale and the
second documented example time. -/
theorem getTime_24h_witness : getTime ⟨false⟩ ⟨23, 15, 1⟩ = hhmmss ⟨23, 15, 1⟩ :=
  getTime_24h_locale ⟨false⟩ ⟨23, 15, 1⟩ rfl

/-- C8: formatDate pins the timeZone option to the fixed zone Africa/Dakar
(UTC+0 year round), so its output is the same under every ambient time
zone of the calling process: the rendering depends only on the parsed
instant. -/
theorem formatDate_tz_independent (tz1 tz2 : Int) (s : String) :
    formatDate tz1 s = formatDate tz2 s := by
  unfold formatDate
  cases h : parseDateString s
  · rfl
  · rfl

/-- C9: dateToTimestamp of the epoch string is timestamp zero, and every
string the date parser rejects yields the invalid-date result none (the
NaN time value), never a valid timestamp. -/
theorem dateToTimestamp_spec :
    dateToTimestamp "01 Jan 1970 00:00:00 UTC" = some 0 ∧
      ∀ s : String, parseDateString s = none → dateToTimestamp s = none :=
  ⟨by decide, fun _ h => h⟩

/-- C9 witness: the failure branch of the theorem applied at a concrete
unparseable string. -/
theorem dateToTimestamp_witness : dateToTimestamp "not a date" = none :=
  dateToTimestamp_spec.2 "not a date" (by decide)

/-- C10: getNextFriday returns the very date object it mutates: the value
of the returned expression is the final state of the argument object (the
two components of the embedded result are equal), that state is a Friday,
and it differs from the date the caller passed in, so after a call that
returns, the caller's variable holds the returned Friday and no longer the
original date. -/
theorem getNextFriday_aliasing (fuel : Nat) (date : JsDate) (p : JsDate × JsDate)
    (hv : date.Valid) (h : getNextFriday fuel date = some p) :
    p.2 = p.1 ∧ getDay p.1 = 5 ∧ p.1 ≠ date := by
  unfold getNextFriday at h
  have hone : (1 : Int) ≤ ((date.day + 1 : Nat) : Int) := by omega
  have hv2 : (setDate date ((date.day + 1 : Nat) : Int)).Valid := normDay_valid _ _ _ hv.1
  have hrd : rd (setDate date ((date.day + 1 : Nat) : Int)) + 1 =
      rd ⟨date.year, date.month, 1⟩ + (date.day + 1) := by
    have h1 := rd_normDay date.year date.month ((date.day + 1 : Nat) : Int) hone
    unfold setDate
    simpa using h1
  have hself := rd_day_decomp date
  have hr : rd date < rd (setDate date ((date.day + 1 : Nat) : Int)) := by
    have := hv.2.1
    omega
  have hd : (setDate date ((date.day + 1 : Nat) : Int)).day ≤ date.day + 1 := by
    have := normDay_day_le date.year date.month ((date.day + 1 : Nat) : Int) hone
    unfold setDate at this ⊢
    omega
  obtain ⟨h1, h2, h3⟩ := nextFridayLoop_spec fuel _ _ p (rd date) hv2 hd hr h
  refine ⟨h1, h2, fun he => ?_⟩
  rw [he] at h3
  omega

/-- C10 witness: the theorem applied at February 13 2024, where the run
returns February 16 2024 in both components. -/
theorem getNextFriday_aliasing_witness :
    ((⟨2024, 1, 16⟩, ⟨2024, 1, 16⟩) : JsDate × JsDate).2 =
        ((⟨2024, 1, 16⟩, ⟨2024, 1, 16⟩) : JsDate × JsDate).1 ∧
      getDay ((⟨2024, 1, 16⟩, ⟨2024, 1, 16⟩) : JsDate × JsDate).1 = 5 ∧
      ((⟨2024, 1, 16⟩, ⟨2024, 1, 16⟩) : JsDate × JsDate).1 ≠ ⟨2024, 1, 13⟩ :=
  getNextFriday_aliasing 10 ⟨2024, 1, 13⟩ (⟨2024, 1, 16⟩, ⟨2024, 1, 16⟩) (by decide)
    (by simp [getNextFriday, nextFridayLoop, setDate, mkDate, normDay, getDay, rd, leapsBefore,
      daysBeforeMonth, daysInMonth, isLeapYear, prevMonth, nextMonth])

theorem mkDate_first (y mo : Nat) (hmo : mo ≤ 11) : mkDate y mo 1 = ⟨y, mo, 1⟩ := by
  unfold mkDate
  rw [Nat.div_eq_of_lt (by omega), Nat.mod_eq_of_lt (by omega)]
  simp only [Nat.add_zero]
  exact normDay_id y mo 1 (by omega) (by have := daysInMonth_bounds y mo; omega)

theorem mkDate_day_zero (y m : Nat) (hm : m ≤ 11) :
    mkDate y (m + 1) 0 = ⟨y, m, daysInMonth y m⟩ := by
  have hb := daysInMonth_bounds y m
  by_cases h11 : m = 11
  · subst h11
    show normDay (y + 12 / 12) (12 % 12) 0 = _
    rw [normDay, dif_pos (by omega)]
    have hprev : prevMonth (y + 1) 0 = (y, 11) := by
      unfold prevMonth
      simp
    rw [hprev]
    have h31 : daysInMonth y 11 = 31 := rfl
    simp only [h31]
    rw [show ((0 : Int) + (31 : Nat)) = ((31 : Nat) : Int) by simp]
    exact normDay_id y 11 31 (by omega) (by omega)
  · have hlt : m + 1 < 12 := by omega
    unfold mkDate
    rw [Nat.div_eq_of_lt hlt, Nat.mod_eq_of_lt hlt]
    simp only [Nat.add_zero]
    rw [normDay, dif_pos (by omega)]
    have hprev : prevMonth y (m + 1) = (y, m) := by
      unfold prevMonth
      simp
    rw [hprev]
    rw [show ((0 : Int) + (daysInMonth y m : Nat)) = ((daysInMonth y m : Nat) : Int) by simp]
    exact normDay_id y m (daysInMonth y m) (by omega) (by omega)

theorem setDate_inMonth (y mo : Nat) (d : JsDate) (j : Nat) (hj : 1 ≤ j)
    (hjd : j ≤ daysInMonth y mo) (hd : d.year = y) (hm : d.month = mo) :
    setDate d (j : Nat) = ⟨y, mo, j⟩ := by
  unfold setDate
  rw [hd, hm]
  exact normDay_id y mo j hj hjd

theorem weekScanDays_spec (y mo : Nat) :
    ∀ (s j count : Nat), 2 ≤ j → j - 1 + s ≤ daysInMonth y mo →
      weekScanDays (List.range' j s) ⟨y, mo, j - 1⟩ count =
        (⟨y, mo, j - 1 + s⟩,
          count + (List.range' (j - 1) s).countP (fun t => decide (getDay ⟨y, mo, t⟩ = 1))) := by
  intro s
  induction s with
  | zero =>
    intro j count _ _
    simp [weekScanDays]
  | succ s ih =>
    intro j count hj hs
    rw [List.range'_succ, List.range'_succ]
    show weekScanDays (j :: List.range' (j + 1) s) ⟨y, mo, j - 1⟩ count = _
    rw [weekScanDays]
    have hset : setDate ⟨y, mo, j - 1⟩ ((j : Nat) : Int) = ⟨y, mo, j⟩ :=
      setDate_inMonth y mo _ j (by omega) (by omega) rfl rfl
    rw [hset]
    have ih2 := ih (j + 1) (if getDay ⟨y, mo, j - 1⟩ = 1 then count + 1 else count)
      (by omega) (by omega)
    have hj1 : j + 1 - 1 = j := by omega
    rw [hj1] at ih2
    rw [ih2]
    rw [List.countP_cons]
    have hj2 : j - 1 + (s + 1) = j + s := by omega
    rw [hj2]
    rw [show j - 1 + 1 = j from by omega]
    by_cases hmon : getDay ⟨y, mo, j - 1⟩ = 1
    · simp [hmon]
      omega
    · simp [hmon]

theorem weekMonthBlock_spec (y mo days count : Nat) (hmo : mo ≤ 11) (hd1 : 1 ≤ days)
    (hd2 : days ≤ daysInMonth y mo) :
    weekMonthBlock y mo days count =
      count + (List.range days).countP (fun t => decide (getDay ⟨y, mo, 1 + t⟩ = 1)) := by
  simp only [weekMonthBlock]
  rw [mkDate_first y mo hmo]
  have hscan := weekScanDays_spec y mo (days - 1) 2 count (by omega) (by omega)
  have h21 : (2 : Nat) - 1 = 1 := rfl
  rw [h21] at hscan
  have hds : 1 + (days - 1) = days := by omega
  rw [hds] at hscan
  rw [hscan]
  have hconcat : List.range' 1 days = List.range' 1 (days - 1) ++ [1 + (days - 1)] := by
    have h := @List.range'_concat 1 1 (days - 1)
    rw [show days - 1 + 1 = days from by omega] at h
    simpa using h
  have hcount : (List.range' 1 days).countP (fun t => decide (getDay ⟨y, mo, t⟩ = 1)) =
      (List.range' 1 (days - 1)).countP (fun t => decide (getDay ⟨y, mo, t⟩ = 1)) +
        (if getDay ⟨y, mo, days⟩ = 1 then 1 else 0) := by
    rw [hconcat, List.countP_append, hds]
    simp [List.countP_cons]
  have hshift : (List.range' 1 days).countP (fun t => decide (getDay ⟨y, mo, t⟩ = 1)) =
      (List.range days).countP (fun t => decide (getDay ⟨y, mo, 1 + t⟩ = 1)) := by
    rw [List.range'_eq_map_range, List.countP_map]
    rfl
  by_cases hmon : getDay ⟨y, mo, days⟩ = 1
  · simp only [hmon] at hcount ⊢
    simp at hcount ⊢
    omega
  · simp only [hmon] at hcount ⊢
    simp [hmon] at hcount ⊢
    omega

theorem weekMonths_append (y : Nat) (l1 l2 : List Nat) (count : Nat) :
    weekMonths y (l1 ++ l2) count = weekMonths y l2 (weekMonths y l1 count) := by
  induction l1 generalizing count with
  | nil => rfl
  | cons i rest ih =>
    rw [List.cons_append, weekMonths, weekMonths, ih]

theorem countP_range_add (p : Nat → Bool) (a b : Nat) :
    (List.range (a + b)).countP p =
      (List.range a).countP p + (List.range b).countP (fun t => p (a + t)) := by
  rw [List.range_add, List.countP_append, List.countP_map]
  rfl

theorem rd_month_day (y mo dd : Nat) (hd : 1 ≤ dd) :
    rd ⟨y, mo, dd⟩ = rd ⟨y, 0, 1⟩ + (daysBeforeMonth y mo + (dd - 1)) := by
  unfold rd
  simp [daysBeforeMonth]
  omega

theorem weekMonths_spec (y : Nat) :
    ∀ M, M ≤ 11 → ∀ count,
      weekMonths y (List.range' 0 M) count =
        count + (List.range (daysBeforeMonth y M)).countP
          (fun k => decide ((rd ⟨y, 0, 1⟩ + k + 6) % 7 = 1)) := by
  intro M
  induction M with
  | zero =>
    intro _ count
    simp [weekMonths, daysBeforeMonth]
  | succ M ih =>
    intro hM count
    have hM11 : M ≤ 11 := by omega
    have hb := daysInMonth_bounds y M
    have hconcat : List.range' 0 (M + 1) = List.range' 0 M ++ [M] := by
      have h := @List.range'_concat 1 0 M
      simpa using h
    rw [hconcat, weekMonths_append, ih hM11]
    show weekMonths y [M]
        (count + (List.range (daysBeforeMonth y M)).countP
          (fun k => decide ((rd ⟨y, 0, 1⟩ + k + 6) % 7 = 1))) = _
    rw [weekMonths, weekMonths, mkDate_day_zero y M hM11]
    have hblock := weekMonthBlock_spec y M (daysInMonth y M)
      (count + (List.range (daysBeforeMonth y M)).countP
        (fun k => decide ((rd ⟨y, 0, 1⟩ + k + 6) % 7 = 1)))
      hM11 (by omega) (by omega)
    rw [hblock]
    have hpred : (fun t => decide (getDay ⟨y, M, 1 + t⟩ = 1)) =
        (fun t => decide ((rd ⟨y, 0, 1⟩ + (daysBeforeMonth y M + t) + 6) % 7 = 1)) := by
      funext t
      have hr : rd ⟨y, M, 1 + t⟩ = rd ⟨y, 0, 1⟩ + (daysBeforeMonth y M + t) := by
        have h := rd_month_day y M (1 + t) (by omega)
        simpa using h
      unfold getDay
      rw [hr]
    rw [hpred]
    have hsplit := countP_range_add
      (fun k => decide ((rd ⟨y, 0, 1⟩ + k + 6) % 7 = 1)) (daysBeforeMonth y M) (daysInMonth y M)
    have hdbm : daysBeforeMonth y (M + 1) = daysBeforeMonth y M + daysInMonth y M := rfl
    rw [hdbm, hsplit]
    omega

/-- C4: getWeekNumberByDate computes exactly the scan-based counter the
spec describes: start at 1 unless January 1 of the year is a Monday, then
add one for every Monday among the calendar days from January 1 through
the given date. -/
theorem getWeekNumberByDate_correct (date : JsDate) (hv : date.Valid) :
    getWeekNumberByDate date = weekNumberSpec date := by
  obtain ⟨hm, hd1, hd2⟩ := hv
  simp only [getWeekNumberByDate, weekNumberSpec]
  rw [mkDate_first date.year 0 (by omega)]
  rw [weekMonths_spec date.year date.month hm]
  rw [weekMonthBlock_spec date.year date.month date.day _ hm hd1 hd2]
  have hpred : (fun t => decide (getDay ⟨date.year, date.month, 1 + t⟩ = 1)) =
      (fun t => decide ((rd ⟨date.year, 0, 1⟩ + (daysBeforeMonth date.year date.month + t) + 6)
        % 7 = 1)) := by
    funext t
    have hr : rd ⟨date.year, date.month, 1 + t⟩ =
        rd ⟨date.year, 0, 1⟩ + (daysBeforeMonth date.year date.month + t) := by
      have h := rd_month_day date.year date.month (1 + t) (by omega)
      simpa using h
    unfold getDay
    rw [hr]
  rw [hpred]
  have hsplit := countP_range_add
    (fun k => decide ((rd ⟨date.year, 0, 1⟩ + k + 6) % 7 = 1))
    (daysBeforeMonth date.year date.month) date.day
  have hn : rd date + 1 - rd ⟨date.year, 0, 1⟩ =
      daysBeforeMonth date.year date.month + date.day := by
    have h := rd_month_day date.year date.month date.day hd1
    have h2 : rd date = rd ⟨date.year, date.month, date.day⟩ := rfl
    omega
  rw [hn]
  have hmap : ((List.range (daysBeforeMonth date.year date.month + date.day)).map
        (fun k => addDays ⟨date.year, 0, 1⟩ k)).countP (fun d => decide (getDay d = 1)) =
      (List.range (daysBeforeMonth date.year date.month + date.day)).countP
        (fun k => decide ((rd ⟨date.year, 0, 1⟩ + k + 6) % 7 = 1)) := by
    rw [List.countP_map]
    have hjan : (⟨date.year, 0, 1⟩ : JsDate).Valid := by
      unfold JsDate.Valid
      simp
      have := daysInMonth_bounds date.year 0
      omega
    have hfun : ((fun d => decide (getDay d = 1)) ∘ (fun k => addDays ⟨date.year, 0, 1⟩ k)) =
        (fun k => decide ((rd ⟨date.year, 0, 1⟩ + k + 6) % 7 = 1)) := by
      funext k
      show decide (getDay (addDays ⟨date.year, 0, 1⟩ k) = 1) = _
      unfold getDay
      rw [rd_addDays _ hjan]
    rw [hfun]
  rw [hmap, hsplit]
  by_cases hjan1 : getDay ⟨date.year, 0, 1⟩ = 1
  · simp [hjan1]
  · simp [hjan1]
    omega

/-- C4 witness: the theorem applied at the third documented example date,
February 23 2024, whose week number is 8. -/
theorem getWeekNumberByDate_witness :
    getWeekNumberByDate ⟨2024, 1, 23⟩ = weekNumberSpec ⟨2024, 1, 23⟩ :=
  getWeekNumberByDate_correct ⟨2024, 1, 23⟩ (by decide)

theorem splitDash_fmtDMY (d m y : Nat) :
    splitDash (fmtDMY d m y).data = [padStart2 d, padStart2 m, natDigits y] := by
  show splitDash (padStart2 d ++ '-' :: (padStart2 m ++ '-' :: natDigits y)) = _
  rw [splitDash_append _ _ (dash_not_mem_padStart2 d),
    splitDash_append _ _ (dash_not_mem_padStart2 m),
    splitDash_no_dash _ (dash_not_mem_natDigits y)]

theorem addDays_sameMonth (y mo d1 : Nat) (hd1 : 1 ≤ d1) :
    ∀ k, d1 + k ≤ daysInMonth y mo → addDays ⟨y, mo, d1⟩ k = ⟨y, mo, d1 + k⟩ := by
  intro k
  induction k with
  | zero => intro _; rfl
  | succ k ih =>
    intro hk
    show nextDay (addDays ⟨y, mo, d1⟩ k) = _
    rw [ih (by omega)]
    unfold nextDay
    simp only []
    rw [show ((d1 + k : Nat) : Int) + 1 = ((d1 + (k + 1) : Nat) : Int) from by push_cast; ring]
    exact normDay_id y mo (d1 + (k + 1)) (by omega) (by omega)

theorem offset_mod_cycle (w o k0 t : Nat) (hw : 1 ≤ w) (hk : k0 % (w + o) = w - 1)
    (ht : 1 ≤ t) (hto : t ≤ o) : (k0 + t) % (w + o) = w - 1 + t := by
  have hdiv := Nat.div_add_mod k0 (w + o)
  have hsum : k0 + t = (w - 1 + t) + (w + o) * (k0 / (w + o)) := by omega
  rw [hsum, Nat.add_mul_mod_self_left, Nat.mod_eq_of_lt (by omega)]

theorem workFinal_spec (y M w o eend d1 : Nat) (hw : 1 ≤ w) :
    ∀ n k0 count acc,
      count = k0 % (w + o) → count < w → n = eend + 1 - (d1 + k0) →
      workFinal y M w o eend (d1 + k0) count acc =
        acc ++ ((List.range' k0 n).filter (fun k => isWorkOffset w o k)).map
          (fun k => fmtDMY (d1 + k) (if 10 ≤ M then M else M + 1) y) := by
  intro n
  induction n using Nat.strong_induction_on with
  | _ n ih =>
    intro k0 count acc hc hcw hn
    by_cases hle : d1 + k0 ≤ eend
    · have hn1 : 1 ≤ n := by omega
      have hpk0 : isWorkOffset w o k0 = true := by
        unfold isWorkOffset
        simp
        omega
      have hdec : List.range' k0 n = k0 :: List.range' (k0 + 1) (n - 1) := by
        rw [show n = (n - 1) + 1 from by omega, List.range'_succ]
        simp
      rw [workFinal, if_pos hle]
      by_cases hskip : w ≤ count + 1
      · rw [if_pos hskip]
        have hkmod : k0 % (w + o) = w - 1 := by omega
        have hinv : (0 : Nat) = (k0 + o + 1) % (w + o) := by
          have hdiv := Nat.div_add_mod k0 (w + o)
          have hsum : k0 + o + 1 = (w + o) * (k0 / (w + o) + 1) := by
            rw [Nat.mul_add, Nat.mul_one]
            omega
          rw [hsum, Nat.mul_mod_right]
        have hrec := ih (n - 1 - o) (by omega) (k0 + o + 1) 0
          (acc ++ [fmtDMY (d1 + k0) (if 10 ≤ M then M else M + 1) y])
          hinv (by omega) (by omega)
        rw [show d1 + k0 + o + 1 = d1 + (k0 + o + 1) from by omega]
        rw [hrec, List.append_assoc]
        congr 1
        rw [hdec, List.filter_cons]
        simp only [hpk0, if_true]
        have hfilter : (List.range' (k0 + 1) (n - 1)).filter (fun k => isWorkOffset w o k) =
            (List.range' (k0 + o + 1) (n - 1 - o)).filter (fun k => isWorkOffset w o k) := by
          by_cases ho1 : o ≤ n - 1
          · have hsplit2 : List.range' (k0 + 1) o ++ List.range' (k0 + 1 + o) (n - 1 - o) =
                List.range' (k0 + 1) (n - 1) := by
              have h := List.range'_append (k0 + 1) o (n - 1 - o) 1
              rw [show n - 1 - o + o = n - 1 from by omega] at h
              simpa using h
            rw [← hsplit2, List.filter_append]
            have hskipped : (List.range' (k0 + 1) o).filter (fun k => isWorkOffset w o k) = [] := by
              rw [List.filter_eq_nil_iff]
              intro x hx
              rw [List.mem_range'_1] at hx
              unfold isWorkOffset
              simp
              have hxk : x = k0 + (x - k0) := by omega
              rw [hxk, offset_mod_cycle w o k0 (x - k0) hw hkmod (by omega) (by omega)]
              omega
            rw [hskipped]
            simp
            rw [show k0 + 1 + o = k0 + o + 1 from by omega]
          · have h1 : n - 1 - o = 0 := by omega
            rw [h1, show List.range' (k0 + o + 1) 0 = [] from rfl, List.filter_nil]
            rw [List.filter_eq_nil_iff]
            intro x hx
            rw [List.mem_range'_1] at hx
            unfold isWorkOffset
            simp
            have hxk : x = k0 + (x - k0) := by omega
            rw [hxk, offset_mod_cycle w o k0 (x - k0) hw hkmod (by omega) (by omega)]
            omega
        rw [hfilter, List.map_cons]
        rfl
      · rw [if_neg hskip]
        have hinv2 : count + 1 = (k0 + 1) % (w + o) := by
          have hdiv := Nat.div_add_mod k0 (w + o)
          have hsum : k0 + 1 = (count + 1) + (w + o) * (k0 / (w + o)) := by omega
          rw [hsum, Nat.add_mul_mod_self_left, Nat.mod_eq_of_lt (by omega)]
        have hrec := ih (n - 1) (by omega) (k0 + 1) (count + 1)
          (acc ++ [fmtDMY (d1 + k0) (if 10 ≤ M then M else M + 1) y])
          hinv2 (by omega) (by omega)
        rw [show d1 + k0 + 1 = d1 + (k0 + 1) from by omega]
        rw [hrec, List.append_assoc]
        congr 1
        rw [hdec, List.filter_cons]
        simp only [hpk0, if_true]
        rw [List.map_cons]
        rfl
    · have hn0 : n = 0 := by omega
      subst hn0
      rw [workFinal, if_neg hle]
      simp

/-- C1 amended: for periods whose start and end fall in the same calendar
month and year, given as the zero-padded DD-MM-YYYY renderings of the two
days, getWorkSchedule returns exactly the days of the inclusive range
whose day-offset k from the start satisfies k mod (workDays + offDays) <
workDays, in chronological order, each formatted as a zero-padded
DD-MM-YYYY string with the day's own month and year. -/
theorem getWorkSchedule_sameMonth (y m d1 d2 w o : Nat)
    (hw : 1 ≤ w) (ho : 1 ≤ o) (hm1 : 1 ≤ m) (hm2 : m ≤ 12)
    (hd1 : 1 ≤ d1) (hd12 : d1 ≤ d2) (hd2 : d2 ≤ daysInMonth y (m - 1)) :
    getWorkSchedule ⟨fmtDMY d1 m y, fmtDMY d2 m y⟩ w o =
      workScheduleSpec ⟨y, m - 1, d1⟩ ⟨y, m - 1, d2⟩ w o := by
  have hM : (if (padStart2 m).headD ' ' = '0' then jsNumber (padStart2 m) - 1
      else jsNumber (padStart2 m)) = (if m < 10 then m - 1 else m) := by
    by_cases h10 : m < 10
    · rw [if_pos ((padStart2_head_zero m).mpr h10), if_pos h10, jsNumber_padStart2]
    · rw [if_neg (fun hc => h10 ((padStart2_head_zero m).mp hc)), if_neg h10, jsNumber_padStart2]
  have hM2 : (if (padStart2 m).headD ' ' = '0' then m - 1 else m) =
      (if m < 10 then m - 1 else m) := by
    by_cases h10 : m < 10
    · rw [if_pos ((padStart2_head_zero m).mpr h10), if_pos h10]
    · rw [if_neg (fun hc => h10 ((padStart2_head_zero m).mp hc)), if_neg h10]
  simp only [getWorkSchedule, splitDash_fmtDMY, List.getD_cons_zero, List.getD_cons_succ,
    hM, hM2, jsNumber_padStart2, jsNumber_natDigits]
  have hmonths : workMonths y (if m < 10 then m - 1 else m) w o
      (if m < 10 then m - 1 else m) d1 0 [] = ([], 0, d1) := by
    rw [workMonths, if_neg (lt_irrefl _)]
  rw [hmonths]
  show workFinal y (if m < 10 then m - 1 else m) w o d2 d1 0 [] = _
  have hfin := workFinal_spec y (if m < 10 then m - 1 else m) w o d2 d1 hw
    (d2 + 1 - d1) 0 0 [] (Nat.zero_mod _).symm (by omega) (by omega)
  simp only [Nat.add_zero] at hfin
  rw [hfin]
  unfold workScheduleSpec
  have hrd : rd ⟨y, m - 1, d2⟩ + 1 - rd ⟨y, m - 1, d1⟩ = d2 + 1 - d1 := by
    unfold rd
    simp
    omega
  rw [hrd, List.range_eq_range']
  rw [List.nil_append]
  apply List.map_congr_left
  intro k hk
  have hkmem : k ∈ List.range' 0 (d2 + 1 - d1) := List.mem_of_mem_filter hk
  rw [List.mem_range'_1] at hkmem
  rw [addDays_sameMonth y (m - 1) d1 hd1 k (by omega)]
  unfold fmtDate
  have hmm : (if 10 ≤ (if m < 10 then m - 1 else m) then (if m < 10 then m - 1 else m)
      else (if m < 10 then m - 1 else m) + 1) = m - 1 + 1 := by
    by_cases h10 : m < 10
    · rw [if_pos h10, if_neg (by omega)]
    · rw [if_neg h10, if_pos (by omega)]
      omega
  rw [hmm]

/-- C1 witness: the amended theorem applied at the documented example
period 01-01-2024 to 10-01-2024 with one work day and one off day. -/
theorem getWorkSchedule_sameMonth_witness :
    getWorkSchedule ⟨fmtDMY 1 1 2024, fmtDMY 10 1 2024⟩ 1 1 =
      workScheduleSpec ⟨2024, 0, 1⟩ ⟨2024, 0, 10⟩ 1 1 :=
  getWorkSchedule_sameMonth 2024 1 1 10 1 1 (by decide) (by decide) (by decide) (by decide)
    (by decide) (by decide) (by decide)

set_option maxRecDepth 8000 in
/-- C1 counterexample: refuted as stated for periods crossing a month
boundary: for the period 31-01-2024 to 02-02-2024 with one work day and
one off day, the code emits only 31-01-2024, although the claimed cycle
also works 02-02-2024 (offset 2, and 2 mod 2 = 0 < 1); the month loop
advances the start day only when the off-skip overruns the month, so the
February loop starts at day 32 and emits nothing. -/
theorem getWorkSchedule_crossMonth_counterexample :
    getWorkSchedule ⟨"31-01-2024", "02-02-2024"⟩ 1 1 ≠
      workScheduleSpec ⟨2024, 0, 31⟩ ⟨2024, 1, 2⟩ 1 1 := by
  have hcode : getWorkSchedule ⟨"31-01-2024", "02-02-2024"⟩ 1 1 = ["31-01-2024"] := by
    simp [getWorkSchedule, workMonths, workInner, workFinal, splitDash, jsNumber, fmtDMY,
      padStart2, natDigits, digitChar, mkDate, normDay, daysInMonth, isLeapYear, prevMonth,
      nextMonth, List.range']
  have hspec : workScheduleSpec ⟨2024, 0, 31⟩ ⟨2024, 1, 2⟩ 1 1 =
      ["31-01-2024", "02-02-2024"] := by
    simp only [workScheduleSpec]
    rw [show rd ⟨2024, 1, 2⟩ + 1 - rd ⟨2024, 0, 31⟩ = 3 from by decide]
    rw [show List.range 3 = [0, 1, 2] from by decide]
    rw [show ([0, 1, 2].filter (fun k => isWorkOffset 1 1 k)) = [0, 2] from by decide]
    simp only [List.map_cons, List.map_nil]
    rw [show addDays ⟨2024, 0, 31⟩ 0 = ⟨2024, 0, 31⟩ from rfl]
    rw [show addDays ⟨2024, 0, 31⟩ 2 = ⟨2024, 1, 2⟩ from by
      simp [addDays, nextDay, normDay, daysInMonth, isLeapYear, prevMonth, nextMonth]]
    simp [fmtDate, fmtDMY, padStart2, natDigits, digitChar]
  rw [hcode, hspec]
  decide

end CoreJsDates
